import Mathlib

/-!
Verification of the subroutine segmentation pass of c2goasm (`subroutine.go`).

The Go source is embedded shallowly: Go slices of strings become `List String`,
Go `panic` becomes the `Except GoPanic` monad (a panic aborts the whole
segmentation, so no partial result survives one), and the per-line helper
functions that live outside `subroutine.go` (`stripComments`, `fixLabels`,
`upperCaseJumps`, `isEpilogueInstruction`, `Epilogue.IsPrologueInstruction`,
`extractEpilogueInfo`) are abstracted into a `LineCtx` record of classifier
functions, with a concrete instance `specCtx` modelled from the specification's
contract for them (spec section 6).  Strings are treated as their character
sequences (the Go code indexes bytes; all inputs of interest are ASCII, where
bytes and runes coincide).
-/

/-- Outcomes of a Go `panic` (or runtime slice-bounds fault) reachable from
`subroutine.go`.  `labelNotFound` carries the label text from `findLabel`'s
panic message; `sliceBounds` stands for a runtime out-of-range slice or
string index. -/
inductive GoPanic where
  | labelNotFound (labelDef : String)
  | unmatchedLabel
  | noRet
  | sliceBounds
deriving DecidableEq, Repr

/-- Characters matched by `\s` in Go's regexp package: tab, newline, form
feed, carriage return and space. -/
def goWhitespace (c : Char) : Bool :=
  c = ' ' || c = '\t' || c = '\n' || c = '\r' || c = '\x0c'

/-- Embeds `regexpRet = regexp.MustCompile(`^\s*ret`)` applied via
`FindStringSubmatch`: the line matches iff after leading whitespace it starts
with `ret`. -/
def isRetLine (line : String) : Bool :=
  List.isPrefixOf ['r', 'e', 't'] (line.data.dropWhile goWhitespace)

/-- Decimal value of a digit string, as `strconv.Atoi` computes it on inputs
made of ASCII digits (on the empty string Go's `Atoi` errors and the Go code
ignores the error, leaving the value `0`, which this function also returns). -/
def charsToNat (cs : List Char) : Nat :=
  cs.foldl (fun a c => a * 10 + (c.toNat - 48)) 0

/-- Embeds `extractNamePart`: reads the maximal leading digit run as a decimal
length `L` and returns `(digits + L, the L characters after the digit run)`.
Go's string slice `part[digits:(digits+length)]` panics when it overruns the
token, which is modelled by `none`. -/
def extractNamePart (part : List Char) : Option (Nat × List Char) :=
  let digits := (part.takeWhile Char.isDigit).length
  let length := charsToNat (part.takeWhile Char.isDigit)
  if digits + length ≤ part.length then
    some (digits + length, (part.drop digits).take length)
  else
    none

/-- Embeds the inner loop of `extractName` (`for index < len(name) { size,
part := extractNamePart(...); if size == 0 break; ... }`).  The loop consumes
at least one character per iteration, so any fuel above the token length is
never exhausted; fuel exhaustion returns `none` like a panic. -/
def extractNameLoopAux : Nat → List Char → Option (List (List Char))
  | 0, _ => none
  | fuel + 1, s =>
    match extractNamePart s with
    | none => none
    | some (size, part) =>
      if size = 0 then some []
      else (extractNameLoopAux fuel (s.drop size)).map (fun parts => part :: parts)

/-- Embeds `extractName` on character lists: scan to the first digit, then
decode length-prefixed fragments from there and join them. -/
def extractNameCore (name : List Char) : Option (List Char) :=
  let rest := name.dropWhile (fun c => !c.isDigit)
  (extractNameLoopAux (rest.length + 1) rest).map List.flatten

/-- Embeds `extractName` on strings: `none` models the panic that Go's string
slicing raises on a malformed length prefix. -/
def extractName (name : String) : Option String :=
  (extractNameCore name.data).map (fun cs => String.mk cs)

/-- Embeds the loop of `findLabel`, carrying the running index.  The prefix
test is `strings.HasPrefix(line, labelDef)`; the panic `"Failed to find
label: ..."` becomes `GoPanic.labelNotFound`. -/
def findLabelAux (labelDef : String) : List String → Nat → Except GoPanic Nat
  | [], _ => .error (.labelNotFound labelDef)
  | line :: rest, idx =>
    if List.isPrefixOf labelDef.data line.data then .ok idx
    else findLabelAux labelDef rest (idx + 1)

/-- Embeds `findLabel`: first line of the whole listing whose raw text starts
with `label + ":"`. -/
def findLabel (lines : List String) (label : String) : Except GoPanic Nat :=
  findLabelAux (label ++ ":") lines 0

/-- Embeds the `Global` struct of `subroutine.go`. -/
structure Global where
  dotGlobalLine : Nat
  globalName : String
  globalLabelLine : Nat
deriving DecidableEq, Repr

/-- Character sequence of the `.globl` directive keyword. -/
def globlChars : List Char := ['.', 'g', 'l', 'o', 'b', 'l']

/-- Suffix of the text after the first `.globl` occurrence, or `none` when
there is none: the `strings.Contains(line, ".globl")` test of
`splitOnGlobals`. -/
def afterGlobl : List Char → Option (List Char)
  | [] => none
  | c :: rest =>
    if List.isPrefixOf globlChars (c :: rest) then some ((c :: rest).drop globlChars.length)
    else afterGlobl rest

/-- Text up to the next `.globl` occurrence: composed with `afterGlobl` this
is Go's `strings.Split(line, ".globl")[1]`. -/
def beforeGlobl : List Char → List Char
  | [] => []
  | c :: rest =>
    if List.isPrefixOf globlChars (c :: rest) then [] else c :: beforeGlobl rest

/-- Whitespace trim on a character list, as `strings.TrimSpace` behaves on
ASCII input. -/
def trimChars (cs : List Char) : List Char :=
  ((cs.dropWhile goWhitespace).reverse.dropWhile goWhitespace).reverse

/-- Embeds the loop body of `splitOnGlobals`: a line containing `.globl`
yields a `Global` whose operand token is `strings.TrimSpace` of the text
between the first `.globl` occurrence and the next one (Go's
`strings.Split(line, ".globl")[1]`). -/
def splitOnGlobalsAux (allLines : List String) : List String → Nat → Except GoPanic (List Global)
  | [], _ => .ok []
  | line :: rest, idx =>
    match afterGlobl line.data with
    | some after => do
      let scrambled := String.mk (trimChars (beforeGlobl after))
      let name ← match extractName scrambled with
        | some n => Except.ok n
        | none => Except.error GoPanic.sliceBounds
      let labelLine ← findLabel allLines scrambled
      let tail ← splitOnGlobalsAux allLines rest (idx + 1)
      Except.ok ({ dotGlobalLine := idx, globalName := name, globalLabelLine := labelLine } :: tail)
    | none =>
      splitOnGlobalsAux allLines rest (idx + 1)

/-- Embeds `splitOnGlobals`. -/
def splitOnGlobals (lines : List String) : Except GoPanic (List Global) :=
  splitOnGlobalsAux lines lines 0

/-- Embeds the `Epilogue` value as far as `subroutine.go` observes it: the
`Start`/`End` line range (`extractEpilogueInfo`'s further fields are never
read by the segmentation pass). -/
structure Epilogue where
  Start : Int
  End : Int
deriving DecidableEq, Repr

/-- Record of the per-line helper functions that `subroutine.go` calls but
that are defined elsewhere in the repository (outside `src/`): the line
classifier contract of spec section 6 plus the epilogue/prologue instruction
shape predicates of spec section 4.4. -/
structure LineCtx where
  stripComments : String → String × Bool
  fixLabels : String → String × String
  upperCaseJumps : String → String × String × String
  isEpilogueInstruction : String → Bool
  isPrologueInstruction : Epilogue → String → Bool

/-- Label defined by a line, as `getMissingLabels` computes it: comments are
stripped first, then `fixLabels` is consulted. -/
def lineLabel (ctx : LineCtx) (line : String) : String :=
  (ctx.fixLabels (ctx.stripComments line).1).2

/-- Jump-target label referenced by a line, as `getMissingLabels` computes it:
comments are stripped first, then `upperCaseJumps` is consulted. -/
def lineJumpTarget (ctx : LineCtx) (line : String) : String :=
  (ctx.upperCaseJumps (ctx.stripComments line).1).2.2

/-- Insertion into a Go `map[string]bool` used as a set, represented as a
duplicate-free list of keys. -/
def insertStr (s : List String) (x : String) : List String :=
  if x ∈ s then s else s ++ [x]

/-- Set of non-empty values of `f` over the lines, mirroring how
`getMissingLabels` fills `labelMap` and `jumpMap`. -/
def collectSet (f : String → String) (lines : List String) : List String :=
  lines.foldl (fun acc line => let x := f line; if x = "" then acc else insertStr acc x) []

/-- Embeds `getMissingLabels`: collects defined labels and jump targets of the
window; a defined label with no jump referencing it panics (`"label not
found"`), otherwise the jump targets not defined in the window are returned. -/
def getMissingLabels (ctx : LineCtx) (src : List String) : Except GoPanic (List String) :=
  let labelMap := collectSet (lineLabel ctx) src
  let jumpMap := collectSet (lineJumpTarget ctx) src
  if ∀ label ∈ labelMap, label ∈ jumpMap then
    .ok (jumpMap.filter (fun label => decide (label ∉ labelMap)))
  else
    .error .unmatchedLabel

/-- Embeds the first loop of `getMissingLines` (`for iline = lineRet;
len(missingLabels) > 0 && iline < len(src); iline++`), with fuel
`src.length - iline` so the bound check is exactly Go's loop condition.
Returns the final `iline` together with the still-missing labels (Go mutates
the caller's map). -/
def scanLabelsAux (ctx : LineCtx) (src : List String) : Nat → List String → Nat → Nat × List String
  | iline, missing, 0 => (iline, missing)
  | iline, missing, fuel + 1 =>
    if missing = [] then (iline, missing)
    else
      let label := (ctx.fixLabels (src.getD iline "")).2
      scanLabelsAux ctx src (iline + 1) (if label = "" then missing else missing.erase label) fuel

/-- First loop of `getMissingLines`, packaged with its fuel. -/
def scanLabels (ctx : LineCtx) (src : List String) (iline : Nat) (missing : List String) :
    Nat × List String :=
  scanLabelsAux ctx src iline missing (src.length - iline)

/-- Embeds the second loop of `getMissingLines` (`for ; iline < len(src);
iline++`), stopping at the first line whose jump mnemonic is exactly `JMP`. -/
def scanJmpAux (ctx : LineCtx) (src : List String) : Nat → Nat → Nat
  | iline, 0 => iline
  | iline, fuel + 1 =>
    if (ctx.upperCaseJumps (src.getD iline "")).2.1 = "JMP" then iline
    else scanJmpAux ctx src (iline + 1) fuel

/-- Second loop of `getMissingLines`, packaged with its fuel. -/
def scanJmp (ctx : LineCtx) (src : List String) (iline : Nat) : Nat :=
  scanJmpAux ctx src iline (src.length - iline)

/-- Embeds `getMissingLines`: scan forward from `lineRet` until the missing
labels are all found (or the listing ends), then on to the first unconditional
`JMP` (or the end), returning how many lines were covered. -/
def getMissingLines (ctx : LineCtx) (src : List String) (lineRet : Nat)
    (missing : List String) : Nat :=
  scanJmp ctx src (scanLabels ctx src lineRet missing).1 - lineRet

/-- Go slice `xs[a:b]` on a valid range. -/
def listSlice (xs : List String) (a b : Nat) : List String :=
  (xs.drop a).take (b - a)

/-- Embeds the closure loop of `extractSubroutine` (`for !disabledForTesting`,
with the test-only toggle off, i.e. the loop enabled).  Go slices
`src[bodyStart:bodyEnd]` panic when the range is invalid, modelled by the
bounds test; the loop body strictly grows `bodyEnd`, so fuel
`src.length + 2` is never exhausted (exhaustion conservatively reports the
same slice panic the overrun would hit). -/
def closureLoopAux (ctx : LineCtx) (src : List String) (bodyStart : Nat) :
    Nat → Nat → Except GoPanic Nat
  | _, 0 => .error .sliceBounds
  | bodyEnd, fuel + 1 =>
    if bodyStart ≤ bodyEnd ∧ bodyEnd ≤ src.length then
      match getMissingLabels ctx (listSlice src bodyStart bodyEnd) with
      | .error e => .error e
      | .ok missing =>
        if missing = [] then .ok bodyEnd
        else closureLoopAux ctx src bodyStart
          (bodyEnd + getMissingLines ctx src (bodyEnd - 1) missing) fuel
    else
      .error .sliceBounds

/-- Closure loop of `extractSubroutine`, packaged with its fuel. -/
def closureLoop (ctx : LineCtx) (src : List String) (bodyStart bodyEnd : Nat) :
    Except GoPanic Nat :=
  closureLoopAux ctx src bodyStart bodyEnd (src.length + 2)

/-- Index of the first line matching the return regexp, as the loop of
`extractEpilogue` finds it. -/
def findRetIdx : List String → Option Nat
  | [] => none
  | line :: rest => if isRetLine line then some 0 else (findRetIdx rest).map (fun i => i + 1)

/-- Embeds the backward scan of `extractEpilogue` (`for ; epilogueStart >= 0;
epilogueStart--`): starting at the return line, walk back over
epilogue-shaped instructions; stop one past the first line that is not
epilogue-shaped, or at `-1` when every line down to index 0 is
epilogue-shaped. -/
def scanEpilogueStart (ctx : LineCtx) (src : List String) : Nat → Int
  | 0 => if ctx.isEpilogueInstruction (src.getD 0 "") then -1 else 1
  | i + 1 =>
    if ctx.isEpilogueInstruction (src.getD (i + 1) "") then scanEpilogueStart ctx src i
    else (i : Int) + 2

/-- Embeds `extractEpilogue`: find the first return line, scan back to the
first non-epilogue instruction, and build the epilogue range
(`extractEpilogueInfo` is modelled from the spec as recording exactly that
`[start, ret+1)` range).  No return line panics
(`"Failed to find 'ret' instruction"`). -/
def extractEpilogue (ctx : LineCtx) (src : List String) : Except GoPanic Epilogue :=
  match findRetIdx src with
  | some iline => .ok { Start := scanEpilogueStart ctx src iline, End := (iline : Int) + 1 }
  | none => .error .noRet

/-- Embeds the `Subroutine` struct of `subroutine.go`. -/
structure Subroutine where
  name : String
  body : List String
  epilogue : Epilogue
deriving DecidableEq, Repr

/-- Embeds `getPrologueLines`: Go's `for index, line = range lines` leaves
`index` at the break position, or at the last index when every line is
comment-only or prologue-shaped (and at 0 on an empty body). -/
def getPrologueLines (ctx : LineCtx) (e : Epilogue) : List String → Nat
  | [] => 0
  | line :: rest =>
    let p := ctx.stripComments line
    if p.2 || ctx.isPrologueInstruction e p.1 then
      match rest with
      | [] => 0
      | _ :: _ => 1 + getPrologueLines ctx e rest
    else 0

/-- Embeds `Subroutine.removePrologueLines`: drop the prologue lines from the
stored body and shift the epilogue range down by the same amount. -/
def removePrologueLines (ctx : LineCtx) (s : Subroutine) : Subroutine :=
  let prologueLines := getPrologueLines ctx s.epilogue s.body
  { s with
    body := s.body.drop prologueLines,
    epilogue := { Start := s.epilogue.Start - (prologueLines : Int),
                  End := s.epilogue.End - (prologueLines : Int) } }

/-- Embeds `extractSubroutine`: resolve `bodyEnd` by the closure loop starting
from `lineRet + 1`, slice the body at `[labelLine+1, bodyEnd)`, compute its
epilogue, then strip the prologue. -/
def extractSubroutine (ctx : LineCtx) (lineRet : Nat) (src : List String)
    (global : Global) : Except GoPanic Subroutine := do
  let bodyStart := global.globalLabelLine + 1
  let bodyEnd ← closureLoop ctx src bodyStart (lineRet + 1)
  let window := listSlice src bodyStart bodyEnd
  let epilogue ← extractEpilogue ctx window
  pure (removePrologueLines ctx { name := global.globalName, body := window, epilogue := epilogue })

/-- Embeds the `ret` search loop of `segmentSource` over `[b, e)`: index of
the first line there matching the return regexp. -/
def findRetAux (src : List String) : Nat → Nat → Option Nat
  | _, 0 => none
  | b, fuel + 1 => if isRetLine (src.getD b "") then some b else findRetAux src (b + 1) fuel

/-- First return-instruction line in `[b, e)`, as `segmentSource` scans for
it. -/
def findRet (src : List String) (b e : Nat) : Option Nat :=
  findRetAux src b (e - b)

/-- One iteration of `segmentSource`'s loop body: search `[b, e)` for a
return instruction; a hit contributes the extracted subroutine, no hit
contributes nothing (the loop falls through without error). -/
def segmentOne (ctx : LineCtx) (src : List String) (global : Global) (b e : Nat) :
    Except GoPanic (List Subroutine) :=
  match findRet src b e with
  | some lineRet =>
    Except.bind (extractSubroutine ctx lineRet src global) (fun s => Except.ok [s])
  | none => Except.ok []

/-- Embeds the main loop of `segmentSource`: each global's region runs from
the incoming `splitBegin` to the next global's directive line (or the end of
the listing). -/
def segmentAux (ctx : LineCtx) (src : List String) :
    List Global → Nat → Except GoPanic (List Subroutine)
  | [], _ => .ok []
  | global :: rest, splitBegin =>
    let splitEnd := match rest with
      | [] => src.length
      | g2 :: _ => g2.dotGlobalLine
    Except.bind (segmentOne ctx src global splitBegin splitEnd)
      (fun firstPart => Except.bind (segmentAux ctx src rest splitEnd)
        (fun tail => Except.ok (firstPart ++ tail)))

/-- Embeds `segmentSource`. -/
def segmentSource (ctx : LineCtx) (src : List String) : Except GoPanic (List Subroutine) :=
  Except.bind (splitOnGlobals src) (fun globals =>
    match globals with
    | [] => .ok []
    | g :: rest => segmentAux ctx src (g :: rest) g.dotGlobalLine)

/-- Region of each global as `segmentSource` derives it: the global together
with its `[splitBegin, splitEnd)` line range, `splitEnd` being the next
global's directive line or the listing length. -/
def regionList (len : Nat) : List Global → Nat → List (Global × Nat × Nat)
  | [], _ => []
  | g :: rest, sb =>
    (g, sb, match rest with | [] => len | g2 :: _ => g2.dotGlobalLine) ::
      regionList len rest (match rest with | [] => len | g2 :: _ => g2.dotGlobalLine)

/-- Modelled from the spec: label detection of the `classifyLabel` /
`fixLabels` contract (spec section 6) — a line whose trimmed text ends in
`:` defines the label written before the colon. -/
def labelOfChars (cs : List Char) : List Char :=
  let t := trimChars cs
  if t.getLast? = some ':' then t.dropLast else []

/-- First whitespace-delimited word of a trimmed line. -/
def firstWordChars (cs : List Char) : List Char :=
  (trimChars cs).takeWhile (fun c => !goWhitespace c)

/-- Second whitespace-delimited word of a trimmed line. -/
def secondWordChars (cs : List Char) : List Char :=
  ((((trimChars cs).dropWhile (fun c => !goWhitespace c)).dropWhile goWhitespace).takeWhile
    (fun c => !goWhitespace c))

/-- Modelled from the spec: the jump classifier of the `classifyJump` /
`upperCaseJumps` contract (spec section 6) — a line whose first word starts
with `j` is a jump; its mnemonic is returned uppercased and its second word
is the target label. -/
def jumpOfChars (cs : List Char) : String × String :=
  let w := firstWordChars cs
  if w.headD ' ' = 'j' then (String.mk (w.map Char.toUpper), String.mk (secondWordChars cs))
  else ("", "")

/-- Modelled from the spec: `stripComments` of spec section 6 — text from the
first `#` on is the comment; the line is comment-only when nothing but
whitespace precedes it. -/
def stripCommentsModel (line : String) : String × Bool :=
  let cs := line.data.takeWhile (fun c => c ≠ '#')
  (String.mk cs, decide (cs.dropWhile goWhitespace = []))

/-- Modelled from the spec: `isEpilogueInstruction` of spec section 4.4 — the
stack teardown shapes; return and register-pop instructions count. -/
def isEpilogueInstructionModel (line : String) : Bool :=
  isRetLine line || List.isPrefixOf ['p', 'o', 'p'] (trimChars line.data)

/-- Modelled from the spec: `Epilogue.IsPrologueInstruction` of spec section
4.4 — the stack setup shapes; register pushes count, label definitions do
not. -/
def isPrologueInstructionModel (_e : Epilogue) (line : String) : Bool :=
  List.isPrefixOf ['p', 'u', 's', 'h'] (trimChars line.data) &&
    !(decide ((trimChars line.data).getLast? = some ':'))

/-- Modelled from the spec: a concrete instance of the line-classifier
contract of spec section 6, used to run the segmentation pass on concrete
listings. -/
def specCtx : LineCtx where
  stripComments := stripCommentsModel
  fixLabels := fun line => (line, String.mk (labelOfChars line.data))
  upperCaseJumps := fun line =>
    let j := jumpOfChars line.data
    (line, j.1, j.2)
  isEpilogueInstruction := isEpilogueInstructionModel
  isPrologueInstruction := isPrologueInstructionModel

instance {ε α : Type} [DecidableEq ε] [DecidableEq α] : DecidableEq (Except ε α)
  | .ok a, .ok b => decidable_of_iff (a = b) (by simp)
  | .error a, .error b => decidable_of_iff (a = b) (by simp)
  | .ok _, .error _ => isFalse (fun h => Except.noConfusion h)
  | .error _, .ok _ => isFalse (fun h => Except.noConfusion h)

example : extractName "3foo3bar" = some "foobar" := by decide
example : extractName "21a" = none := by decide
example : extractName "foo" = some "" := by decide
example : splitOnGlobals [".globl 3foo", "foo:"] = .error (.labelNotFound "3foo:") := by decide
example : segmentSource specCtx [".globl foo", "foo:", " ret"] =
    .ok [{ name := "", body := [" ret"], epilogue := { Start := -1, End := 1 } }] := by decide

theorem mem_insertStr {s : List String} {x y : String} :
    y ∈ insertStr s x ↔ y ∈ s ∨ y = x := by
  unfold insertStr
  split
  · constructor
    · exact Or.inl
    · rintro (h | rfl) <;> [exact h; assumption]
  · simp [List.mem_append]

theorem mem_collectSet_aux {f : String → String} {y : String} :
    ∀ (lines : List String) (acc : List String),
      (y ∈ lines.foldl
          (fun acc line => let x := f line; if x = "" then acc else insertStr acc x) acc ↔
        y ∈ acc ∨ (y ≠ "" ∧ ∃ l ∈ lines, f l = y)) := by
  intro lines
  induction lines with
  | nil => simp
  | cons l t ih =>
    intro acc
    simp only [List.foldl_cons]
    rw [ih]
    by_cases hl : f l = ""
    · simp only [hl, if_pos rfl]
      constructor
      · rintro (h | ⟨hy, w, hw, hfw⟩)
        · exact Or.inl h
        · exact Or.inr ⟨hy, w, List.mem_cons_of_mem _ hw, hfw⟩
      · rintro (h | ⟨hy, w, hw, hfw⟩)
        · exact Or.inl h
        · rcases List.mem_cons.mp hw with rfl | hw
          · exact absurd (hfw ▸ hl) hy
          · exact Or.inr ⟨hy, w, hw, hfw⟩
    · simp only [if_neg hl]
      constructor
      · rintro (h | ⟨hy, w, hw, hfw⟩)
        · rcases mem_insertStr.mp h with h | rfl
          · exact Or.inl h
          · exact Or.inr ⟨hl, l, List.mem_cons_self _ _, rfl⟩
        · exact Or.inr ⟨hy, w, List.mem_cons_of_mem _ hw, hfw⟩
      · rintro (h | ⟨hy, w, hw, hfw⟩)
        · exact Or.inl (mem_insertStr.mpr (Or.inl h))
        · rcases List.mem_cons.mp hw with rfl | hw
          · exact Or.inl (mem_insertStr.mpr (Or.inr hfw.symm))
          · exact Or.inr ⟨hy, w, hw, hfw⟩

theorem mem_collectSet {f : String → String} {lines : List String} {y : String} :
    y ∈ collectSet f lines ↔ y ≠ "" ∧ ∃ l ∈ lines, f l = y := by
  unfold collectSet
  rw [mem_collectSet_aux]
  simp

theorem scanJmpAux_ge (ctx : LineCtx) (src : List String) :
    ∀ (fuel i : Nat), i ≤ scanJmpAux ctx src i fuel := by
  intro fuel
  induction fuel with
  | zero => intro i; exact Nat.le_refl i
  | succ f ih =>
    intro i
    unfold scanJmpAux
    split
    · exact Nat.le_refl i
    · exact Nat.le_trans (Nat.le_succ i) (ih (i + 1))

theorem scanJmp_ge (ctx : LineCtx) (src : List String) (i : Nat) :
    i ≤ scanJmp ctx src i :=
  scanJmpAux_ge ctx src _ i

theorem scanLabelsAux_fst_ge (ctx : LineCtx) (src : List String) :
    ∀ (fuel i : Nat) (missing : List String),
      i ≤ (scanLabelsAux ctx src i missing fuel).1 := by
  intro fuel
  induction fuel with
  | zero => intro i missing; exact Nat.le_refl i
  | succ f ih =>
    intro i missing
    unfold scanLabelsAux
    split
    · exact Nat.le_refl i
    · exact Nat.le_trans (Nat.le_succ i) (ih (i + 1) _)

theorem scanLabels_fst_ge (ctx : LineCtx) (src : List String) (i : Nat)
    (missing : List String) : i ≤ (scanLabels ctx src i missing).1 :=
  scanLabelsAux_fst_ge ctx src _ i missing

theorem getMissingLabels_nil (ctx : LineCtx) : getMissingLabels ctx [] = .ok [] := by
  unfold getMissingLabels collectSet
  simp

theorem listSlice_ne_nil_bounds {src : List String} {a b : Nat}
    (h : listSlice src a b ≠ []) : a < b ∧ a < src.length := by
  unfold listSlice at h
  constructor
  · by_contra hab
    rw [Nat.sub_eq_zero_of_le (Nat.le_of_not_lt hab)] at h
    exact h (List.take_zero _)
  · by_contra ha
    rw [List.drop_eq_nil_of_le (Nat.le_of_not_lt ha)] at h
    exact h (List.take_nil)

theorem getMissingLabels_eq (ctx : LineCtx) (w : List String) :
    getMissingLabels ctx w =
      if ∀ label ∈ collectSet (lineLabel ctx) w, label ∈ collectSet (lineJumpTarget ctx) w then
        .ok ((collectSet (lineJumpTarget ctx) w).filter
          (fun label => decide (label ∉ collectSet (lineLabel ctx) w)))
      else .error .unmatchedLabel := rfl

theorem getMissingLabels_ok_closed (ctx : LineCtx) (w : List String)
    (h : getMissingLabels ctx w = .ok []) :
    ∀ y ∈ collectSet (lineJumpTarget ctx) w, y ∈ collectSet (lineLabel ctx) w := by
  rw [getMissingLabels_eq] at h
  split at h
  · intro y hy
    by_contra hn
    have : y ∈ (collectSet (lineJumpTarget ctx) w).filter
        (fun label => decide (label ∉ collectSet (lineLabel ctx) w)) :=
      List.mem_filter.mpr ⟨hy, by simpa using hn⟩
    rw [Except.ok.injEq] at h
    rw [h] at this
    exact absurd this (List.not_mem_nil y)
  · exact absurd h (by simp)

theorem getMissingLabels_unmatched (ctx : LineCtx) (w : List String)
    (h : ∃ line ∈ w, lineLabel ctx line ≠ "" ∧
          lineLabel ctx line ∉ collectSet (lineJumpTarget ctx) w) :
    getMissingLabels ctx w = .error .unmatchedLabel := by
  obtain ⟨line, hmem, hne, hnot⟩ := h
  unfold getMissingLabels
  rw [if_neg]
  intro hall
  exact hnot (hall _ (mem_collectSet.mpr ⟨hne, line, hmem, rfl⟩))

theorem closureLoopAux_ok_closed (ctx : LineCtx) (src : List String) (bs : Nat) :
    ∀ (fuel be be' : Nat), closureLoopAux ctx src bs be fuel = .ok be' →
      getMissingLabels ctx (listSlice src bs be') = .ok [] ∧
      bs ≤ be' ∧ be' ≤ src.length := by
  intro fuel
  induction fuel with
  | zero => intro be be' h; exact absurd h (by simp [closureLoopAux])
  | succ f ih =>
    intro be be' h
    unfold closureLoopAux at h
    split at h
    · rename_i hb
      split at h
      · exact absurd h (by simp)
      · rename_i missing hm
        split at h
        · rename_i hmiss
          rw [Except.ok.injEq] at h
          subst h
          subst hmiss
          exact ⟨hm, hb.1, hb.2⟩
        · exact ih _ _ h
    · exact absurd h (by simp)

theorem closureLoop_ok_closed (ctx : LineCtx) (src : List String) (bs be be' : Nat)
    (h : closureLoop ctx src bs be = .ok be') :
    getMissingLabels ctx (listSlice src bs be') = .ok [] ∧
    bs ≤ be' ∧ be' ≤ src.length :=
  closureLoopAux_ok_closed ctx src bs _ be be' h

theorem extractSubroutine_ok_elim (ctx : LineCtx) (lineRet : Nat) (src : List String)
    (g : Global) (s : Subroutine) (h : extractSubroutine ctx lineRet src g = .ok s) :
    ∃ be epi, closureLoop ctx src (g.globalLabelLine + 1) (lineRet + 1) = .ok be ∧
      extractEpilogue ctx (listSlice src (g.globalLabelLine + 1) be) = .ok epi ∧
      s = removePrologueLines ctx
        { name := g.globalName,
          body := listSlice src (g.globalLabelLine + 1) be,
          epilogue := epi } := by
  have hdef : extractSubroutine ctx lineRet src g =
      Except.bind (closureLoop ctx src (g.globalLabelLine + 1) (lineRet + 1)) (fun bodyEnd =>
        Except.bind (extractEpilogue ctx (listSlice src (g.globalLabelLine + 1) bodyEnd))
          (fun epi => Except.ok (removePrologueLines ctx
            { name := g.globalName,
              body := listSlice src (g.globalLabelLine + 1) bodyEnd,
              epilogue := epi }))) := rfl
  rw [hdef] at h
  cases hcl : closureLoop ctx src (g.globalLabelLine + 1) (lineRet + 1) with
  | error e => rw [hcl] at h; exact absurd h (by simp [Except.bind])
  | ok be =>
    rw [hcl] at h
    simp only [Except.bind] at h
    cases hep : extractEpilogue ctx (listSlice src (g.globalLabelLine + 1) be) with
    | error e => rw [hep] at h; exact absurd h (by simp)
    | ok epi =>
      rw [hep] at h
      simp only [Except.ok.injEq] at h
      exact ⟨be, epi, rfl, hep, h.symm⟩

theorem extractSubroutine_name (ctx : LineCtx) (lineRet : Nat) (src : List String)
    (g : Global) (s : Subroutine) (h : extractSubroutine ctx lineRet src g = .ok s) :
    s.name = g.globalName := by
  obtain ⟨be, epi, _, _, hs⟩ := extractSubroutine_ok_elim ctx lineRet src g s h
  rw [hs]
  rfl

theorem getPrologueLines_cons (ctx : LineCtx) (e : Epilogue) (line : String)
    (rest : List String) :
    getPrologueLines ctx e (line :: rest) =
      if ((ctx.stripComments line).2 || ctx.isPrologueInstruction e (ctx.stripComments line).1)
      then (match rest with | [] => 0 | _ :: _ => 1 + getPrologueLines ctx e rest)
      else 0 := rfl

theorem getPrologueLines_shape (ctx : LineCtx) (e : Epilogue) :
    ∀ (lines : List String) (j : Nat), j < getPrologueLines ctx e lines →
      (ctx.stripComments (lines.getD j "")).2 = true ∨
      ctx.isPrologueInstruction e (ctx.stripComments (lines.getD j "")).1 = true := by
  intro lines
  induction lines with
  | nil => intro j hj; simp [getPrologueLines] at hj
  | cons line rest ih =>
    intro j hj
    rw [getPrologueLines_cons] at hj
    by_cases hor :
        ((ctx.stripComments line).2 || ctx.isPrologueInstruction e (ctx.stripComments line).1)
          = true
    · rw [if_pos hor] at hj
      cases rest with
      | nil => exact absurd hj (Nat.not_lt_zero j)
      | cons r rs =>
        cases j with
        | zero =>
          rw [Bool.or_eq_true] at hor
          simpa [List.getD] using hor
        | succ k =>
          have hj' : k + 1 < 1 + getPrologueLines ctx e (r :: rs) := hj
          have hk : k < getPrologueLines ctx e (r :: rs) := by omega
          simpa [List.getD] using ih k hk
    · rw [if_neg hor] at hj
      exact absurd hj (Nat.not_lt_zero j)

theorem mem_take_getD : ∀ (l : List String) (n : Nat) (x : String),
    x ∈ l.take n → ∃ j, j < n ∧ l.getD j "" = x := by
  intro l
  induction l with
  | nil => intro n x hx; rw [List.take_nil] at hx; exact absurd hx (List.not_mem_nil x)
  | cons a t ih =>
    intro n x hx
    cases n with
    | zero => exact absurd hx (List.not_mem_nil x)
    | succ n =>
      rw [List.take_succ_cons] at hx
      rcases List.mem_cons.mp hx with rfl | hx
      · exact ⟨0, Nat.succ_pos n, rfl⟩
      · obtain ⟨j, hj, hg⟩ := ih n x hx
        exact ⟨j + 1, Nat.succ_lt_succ hj, hg⟩

theorem scanEpilogueStart_le_add_one (ctx : LineCtx) (src : List String) :
    ∀ i : Nat, scanEpilogueStart ctx src i ≤ (i : Int) + 1 := by
  intro i
  induction i with
  | zero =>
    unfold scanEpilogueStart
    split
    · omega
    · omega
  | succ i ih =>
    unfold scanEpilogueStart
    split
    · calc scanEpilogueStart ctx src i ≤ (i : Int) + 1 := ih
        _ ≤ ((i : Int) + 1) + 1 := by omega
    · push_cast
      omega

theorem scanEpilogueStart_le (ctx : LineCtx) (src : List String) (i : Nat)
    (h : ctx.isEpilogueInstruction (src.getD i "") = true) :
    scanEpilogueStart ctx src i ≤ (i : Int) := by
  cases i with
  | zero =>
    unfold scanEpilogueStart
    rw [if_pos h]
    omega
  | succ i =>
    unfold scanEpilogueStart
    rw [if_pos h]
    calc scanEpilogueStart ctx src i ≤ (i : Int) + 1 := scanEpilogueStart_le_add_one ctx src i
      _ = ((i + 1 : Nat) : Int) := by push_cast; ring

theorem findRetAux_spec (src : List String) :
    ∀ (fuel b r : Nat), findRetAux src b fuel = some r →
      b ≤ r ∧ r < b + fuel ∧ isRetLine (src.getD r "") = true ∧
      ∀ j, b ≤ j → j < r → isRetLine (src.getD j "") = false := by
  intro fuel
  induction fuel with
  | zero => intro b r h; exact absurd h (by simp [findRetAux])
  | succ f ih =>
    intro b r h
    unfold findRetAux at h
    by_cases hret : isRetLine (src.getD b "") = true
    · rw [if_pos hret, Option.some.injEq] at h
      subst h
      exact ⟨Nat.le_refl b, by omega, hret, fun j h1 h2 => absurd (Nat.lt_of_le_of_lt h1 h2)
        (Nat.lt_irrefl b)⟩
    · rw [if_neg hret] at h
      obtain ⟨hbr, hlt, hr, hprev⟩ := ih (b + 1) r h
      refine ⟨by omega, by omega, hr, fun j h1 h2 => ?_⟩
      rcases Nat.eq_or_lt_of_le h1 with rfl | h1
      · exact Bool.not_eq_true _ ▸ (by simpa using hret)
      · exact hprev j h1 h2

theorem findRet_spec (src : List String) (b e r : Nat) (h : findRet src b e = some r) :
    b ≤ r ∧ r < e ∧ isRetLine (src.getD r "") = true ∧
    ∀ j, b ≤ j → j < r → isRetLine (src.getD j "") = false := by
  unfold findRet at h
  obtain ⟨h1, h2, h3, h4⟩ := findRetAux_spec src (e - b) b r h
  by_cases hbe : b ≤ e
  · exact ⟨h1, by omega, h3, h4⟩
  · rw [Nat.sub_eq_zero_of_le (by omega)] at h
    exact absurd h (by simp [findRetAux])

theorem specCtx_skip_no_label (line : String)
    (h : (specCtx.stripComments line).2 = true) : lineLabel specCtx line = "" := by
  have hnil : (line.data.takeWhile (fun c => c ≠ '#')).dropWhile goWhitespace = [] := by
    simpa [specCtx, stripCommentsModel] using h
  show String.mk (labelOfChars (line.data.takeWhile (fun c => c ≠ '#'))) = ""
  unfold labelOfChars trimChars
  rw [hnil]
  simp

theorem specCtx_label_not_prologue (e : Epilogue) (line : String)
    (h : lineLabel specCtx line ≠ "") :
    specCtx.isPrologueInstruction e (specCtx.stripComments line).1 = false := by
  have hlab : labelOfChars (line.data.takeWhile (fun c => c ≠ '#')) ≠ [] := by
    intro hc
    apply h
    show String.mk (labelOfChars (line.data.takeWhile (fun c => c ≠ '#'))) = ""
    rw [hc]
  have hcolon :
      (trimChars (line.data.takeWhile (fun c => c ≠ '#'))).getLast? = some ':' := by
    by_contra hc
    apply hlab
    unfold labelOfChars
    rw [if_neg hc]
  show isPrologueInstructionModel e (String.mk (line.data.takeWhile (fun c => c ≠ '#'))) = false
  unfold isPrologueInstructionModel
  have : (String.mk (line.data.takeWhile (fun c => c ≠ '#'))).data =
      line.data.takeWhile (fun c => c ≠ '#') := rfl
  rw [this, hcolon]
  simp

theorem takeWhile_all_append {α : Type} (p : α → Bool) :
    ∀ (l1 l2 : List α), (∀ a ∈ l1, p a = true) →
      (l1 ++ l2).takeWhile p = l1 ++ l2.takeWhile p := by
  intro l1
  induction l1 with
  | nil => intro l2 _; simp
  | cons a t ih =>
    intro l2 h
    simp only [List.cons_append, List.takeWhile_cons]
    rw [h a (List.mem_cons_self a t), ih l2 (fun b hb => h b (List.mem_cons_of_mem a hb))]
    simp

theorem extractNamePart_eq (part : List Char) :
    extractNamePart part =
      if (part.takeWhile Char.isDigit).length + charsToNat (part.takeWhile Char.isDigit) ≤
          part.length
      then some ((part.takeWhile Char.isDigit).length + charsToNat (part.takeWhile Char.isDigit),
        (part.drop (part.takeWhile Char.isDigit).length).take
          (charsToNat (part.takeWhile Char.isDigit)))
      else none := rfl

theorem extractNamePart_encode (p1 p2 r : List Char) (_h1 : p1 ≠ [])
    (hd : ∀ c ∈ p1, c.isDigit = true) (hn : charsToNat p1 = p2.length) (h2 : p2 ≠ [])
    (hh : ∀ c ∈ p2.take 1, c.isDigit = false) :
    extractNamePart (p1 ++ (p2 ++ r)) = some (p1.length + p2.length, p2) := by
  have htw2 : (p2 ++ r).takeWhile Char.isDigit = [] := by
    cases p2 with
    | nil => exact absurd rfl h2
    | cons c t =>
      have hc : c.isDigit = false := hh c (by simp)
      simp [List.takeWhile_cons, hc]
  have htw : (p1 ++ (p2 ++ r)).takeWhile Char.isDigit = p1 := by
    rw [takeWhile_all_append Char.isDigit p1 (p2 ++ r) hd, htw2, List.append_nil]
  rw [extractNamePart_eq, htw, hn]
  rw [if_pos (by simp only [List.length_append]; omega)]
  rw [List.drop_left, List.take_left]

theorem extractNameLoopAux_step (f : Nat) (s : List Char) (sz : Nat) (part : List Char)
    (h : extractNamePart s = some (sz, part)) (hsz : sz ≠ 0) :
    extractNameLoopAux (f + 1) s =
      (extractNameLoopAux f (s.drop sz)).map (fun parts => part :: parts) := by
  have hstep : extractNameLoopAux (f + 1) s =
      match extractNamePart s with
      | none => none
      | some (size, part) =>
        if size = 0 then some []
        else (extractNameLoopAux f (s.drop size)).map (fun parts => part :: parts) := rfl
  rw [hstep, h]
  show (if sz = 0 then some []
    else (extractNameLoopAux f (s.drop sz)).map (fun parts => part :: parts)) =
    (extractNameLoopAux f (s.drop sz)).map (fun parts => part :: parts)
  rw [if_neg hsz]

theorem charsToNat_foldl_init (b : List Char) :
    ∀ x : Nat, b.foldl (fun a c => a * 10 + (c.toNat - 48)) x =
      x * 10 ^ b.length + charsToNat b := by
  induction b with
  | nil => intro x; simp [charsToNat]
  | cons c t ih =>
    intro x
    rw [List.foldl_cons, ih (x * 10 + (c.toNat - 48))]
    have h2 : charsToNat (c :: t) = (c.toNat - 48) * 10 ^ t.length + charsToNat t := by
      show (c :: t).foldl (fun a c => a * 10 + (c.toNat - 48)) 0 = _
      rw [List.foldl_cons, ih (0 * 10 + (c.toNat - 48))]
      ring
    rw [h2, List.length_cons, pow_succ]
    ring

theorem charsToNat_append (a b : List Char) :
    charsToNat (a ++ b) = charsToNat a * 10 ^ b.length + charsToNat b := by
  show (a ++ b).foldl (fun a c => a * 10 + (c.toNat - 48)) 0 = _
  rw [List.foldl_append]
  exact charsToNat_foldl_init b (charsToNat a)

theorem extractNamePart_digits_zero (p : List Char)
    (hd : ∀ c ∈ p, c.isDigit = true) (hz : charsToNat p = 0) :
    extractNamePart p = some (p.length, []) := by
  have htw : p.takeWhile Char.isDigit = p := by
    have h := takeWhile_all_append Char.isDigit p [] hd
    simpa using h
  rw [extractNamePart_eq, htw, hz]
  rw [if_pos (by omega)]
  simp

theorem extractNameLoopAux_encode :
    ∀ (n : Nat) (pairs : List (List Char × List Char)), pairs.length ≤ n →
      (∀ q ∈ pairs, q.1 ≠ [] ∧ (∀ c ∈ q.1, c.isDigit = true) ∧
        charsToNat q.1 = q.2.length ∧ (∀ c ∈ q.2.take 1, c.isDigit = false)) →
      ∀ fuel, (List.flatten (pairs.map (fun q => q.1 ++ q.2))).length + 1 ≤ fuel →
      (extractNameLoopAux fuel
          (List.flatten (pairs.map (fun q => q.1 ++ q.2)))).map List.flatten =
        some (List.flatten (pairs.map (fun q => q.2))) := by
  intro n
  induction n with
  | zero =>
    intro pairs hlen _ fuel hf
    have hnil : pairs = [] := List.length_eq_zero.mp (Nat.le_zero.mp hlen)
    subst hnil
    cases fuel with
    | zero => simp at hf
    | succ f => rfl
  | succ n ih =>
    intro pairs hlen hq fuel hf
    cases pairs with
    | nil =>
      cases fuel with
      | zero => simp at hf
      | succ f => rfl
    | cons q rest =>
      obtain ⟨h1, hd, hn, hh⟩ := hq q (List.mem_cons_self q rest)
      have hlen1 : 0 < q.1.length := List.length_pos.mpr h1
      by_cases hf2 : q.2 = []
      · have hz : charsToNat q.1 = 0 := by rw [hn, hf2]; rfl
        cases rest with
        | nil =>
          have htok : List.flatten ([q].map (fun q => q.1 ++ q.2)) = q.1 := by
            simp [hf2]
          rw [htok] at hf ⊢
          cases fuel with
          | zero => exact absurd hf (by omega)
          | succ f =>
            have hpart := extractNamePart_digits_zero q.1 hd hz
            rw [extractNameLoopAux_step f q.1 q.1.length [] hpart (by omega)]
            rw [List.drop_length]
            cases f with
            | zero => exact absurd hlen1 (by omega)
            | succ f2 =>
              have hloop : extractNameLoopAux (f2 + 1) [] = some [] := rfl
              rw [hloop]
              simp [hf2]
        | cons q2 rest2 =>
          obtain ⟨h21, h2d, h2n, h2h⟩ :=
            hq q2 (List.mem_cons_of_mem q (List.mem_cons_self q2 rest2))
          have hmtok :
              List.flatten (((q.1 ++ q2.1, q2.2) :: rest2).map (fun q => q.1 ++ q.2)) =
              List.flatten ((q :: q2 :: rest2).map (fun q => q.1 ++ q.2)) := by
            simp [hf2, List.append_assoc]
          have hmfrag :
              List.flatten (((q.1 ++ q2.1, q2.2) :: rest2).map (fun q => q.2)) =
              List.flatten ((q :: q2 :: rest2).map (fun q => q.2)) := by
            simp [hf2]
          have hhyps : ∀ p ∈ (q.1 ++ q2.1, q2.2) :: rest2,
              p.1 ≠ [] ∧ (∀ c ∈ p.1, c.isDigit = true) ∧
              charsToNat p.1 = p.2.length ∧ (∀ c ∈ p.2.take 1, c.isDigit = false) := by
            intro p hp
            rcases List.mem_cons.mp hp with rfl | hp
            · refine ⟨?_, ?_, ?_, h2h⟩
              · intro hc
                exact h1 (List.append_eq_nil.mp hc).1
              · intro c hc
                rcases List.mem_append.mp hc with hc | hc
                · exact hd c hc
                · exact h2d c hc
              · rw [charsToNat_append, hz]
                simpa using h2n
            · exact hq p (List.mem_cons_of_mem q (List.mem_cons_of_mem q2 hp))
          have hlen' : ((q.1 ++ q2.1, q2.2) :: rest2).length ≤ n := by
            simp only [List.length_cons] at hlen ⊢
            omega
          have hres := ih ((q.1 ++ q2.1, q2.2) :: rest2) hlen' hhyps fuel
            (by rw [hmtok]; exact hf)
          rw [hmtok, hmfrag] at hres
          exact hres
      · have henc : List.flatten ((q :: rest).map (fun q => q.1 ++ q.2)) =
            q.1 ++ (q.2 ++ List.flatten (rest.map (fun q => q.1 ++ q.2))) := by
          simp [List.append_assoc]
        rw [henc] at hf ⊢
        cases fuel with
        | zero => simp [List.length_append] at hf
        | succ f =>
          have hpart := extractNamePart_encode q.1 q.2
            (List.flatten (rest.map (fun q => q.1 ++ q.2))) h1 hd hn hf2 hh
          have hsz : q.1.length + q.2.length ≠ 0 := by omega
          rw [extractNameLoopAux_step f _ _ _ hpart hsz]
          have hdrop : (q.1 ++ (q.2 ++ List.flatten (rest.map (fun q => q.1 ++ q.2)))).drop
              (q.1.length + q.2.length) = List.flatten (rest.map (fun q => q.1 ++ q.2)) := by
            rw [← List.append_assoc, ← List.length_append]
            exact List.drop_left _ _
          have hfr : (List.flatten (rest.map (fun q => q.1 ++ q.2))).length + 1 ≤ f := by
            simp only [List.length_append] at hf
            omega
          have hrest := ih rest (by simp only [List.length_cons] at hlen; omega)
            (fun p hp => hq p (List.mem_cons_of_mem q hp)) f hfr
          rw [hdrop]
          cases hlr : extractNameLoopAux f
              (List.flatten (rest.map (fun q => q.1 ++ q.2))) with
          | none => rw [hlr] at hrest; exact absurd hrest (by simp)
          | some parts =>
            rw [hlr] at hrest
            have hparts : List.flatten parts = List.flatten (rest.map (fun q => q.2)) :=
              Option.some.inj hrest
            show some (q.2 ++ List.flatten parts) =
              some (List.flatten ((q :: rest).map (fun q => q.2)))
            rw [hparts]
            simp

/-- C5 (amended): for every token built by concatenating, for each fragment in
a sequence, a digit run whose decimal value is that fragment's length followed
by the fragment itself, where no fragment begins with a digit (fragments may
be empty, their zero-valued digit runs merging into the next length prefix),
the symbol name decoder returns the concatenation of the fragments.  (When a
fragment begins with a digit the decoder instead reads the fragment's leading
digits as part of the length prefix and aborts; see the counterexample.) -/
theorem c5_decode_encoded (pairs : List (List Char × List Char))
    (h : ∀ q ∈ pairs, q.1 ≠ [] ∧ (∀ c ∈ q.1, c.isDigit = true) ∧
      charsToNat q.1 = q.2.length ∧ (∀ c ∈ q.2.take 1, c.isDigit = false)) :
    extractNameCore (List.flatten (pairs.map (fun q => q.1 ++ q.2))) =
      some (List.flatten (pairs.map (fun q => q.2))) := by
  have hdw : (List.flatten (pairs.map (fun q => q.1 ++ q.2))).dropWhile (fun c => !c.isDigit) =
      List.flatten (pairs.map (fun q => q.1 ++ q.2)) := by
    cases pairs with
    | nil => rfl
    | cons q rest =>
      obtain ⟨h1, hd, _, _⟩ := h q (List.mem_cons_self q rest)
      cases hq1 : q.1 with
      | nil => exact absurd hq1 h1
      | cons c t =>
        have hc : c.isDigit = true := hd c (by rw [hq1]; exact List.mem_cons_self c t)
        have hsplit : List.flatten ((q :: rest).map (fun q => q.1 ++ q.2)) =
            c :: (t ++ (q.2 ++ List.flatten (rest.map (fun q => q.1 ++ q.2)))) := by
          simp [hq1, List.append_assoc]
        rw [hsplit]
        simp [List.dropWhile_cons, hc]
  have hcore : extractNameCore (List.flatten (pairs.map (fun q => q.1 ++ q.2))) =
      (extractNameLoopAux
        (((List.flatten (pairs.map (fun q => q.1 ++ q.2))).dropWhile
            (fun c => !c.isDigit)).length + 1)
        ((List.flatten (pairs.map (fun q => q.1 ++ q.2))).dropWhile
          (fun c => !c.isDigit))).map List.flatten := rfl
  rw [hcore, hdw]
  exact extractNameLoopAux_encode pairs.length pairs (Nat.le_refl _) h _ (Nat.le_refl _)

/-- C5 counterexample: the token `"21a"` is `"2" ++ "1a"`, i.e. the fragment
`"1a"` prefixed with its decimal length, but the decoder does not return
`"1a"`: it reads the digit run `"21"` as the length, overruns the token, and
aborts (Go panics on the string slice). -/
theorem c5_counterexample :
    extractName ("2" ++ "1a") = none ∧ extractName ("2" ++ "1a") ≠ some "1a" := by
  decide

/-- C5 witness: decoding `"3foo3bar"` (fragments `"foo"`, `"bar"` with length
prefixes `"3"`, `"3"`) yields `"foobar"`. -/
theorem c5_witness :
    extractNameCore (List.flatten ([(['3'], ['f', 'o', 'o']), (['3'], ['b', 'a', 'r'])].map
      (fun q => q.1 ++ q.2))) =
      some (List.flatten ([(['3'], ['f', 'o', 'o']), (['3'], ['b', 'a', 'r'])].map
        (fun q => q.2))) :=
  c5_decode_encoded [(['3'], ['f', 'o', 'o']), (['3'], ['b', 'a', 'r'])] (by decide)

example : extractName "01a" = some "a" := by decide
example : extractName "1a0" = some "a" := by decide
example : extractName "1a01b" = some "ab" := by decide
example : extractName "00" = some "" := by decide
example : extractName "002xy" = some "xy" := by decide
example : extractName "2a101b" = some "a1b" := by decide

/-- C6: a `.globl` operand token containing no digit decodes to the empty
string, and segmentation of a listing with such a token does not fail on that
account: it produces a subroutine whose name is the empty string (concrete
listing `[".globl foo", "foo:", " ret"]`, whose operand `"foo"` has no
digit). -/
theorem c6_no_digit_empty_name :
    (∀ token : String, (∀ c ∈ token.data, c.isDigit = false) → extractName token = some "") ∧
    segmentSource specCtx [".globl foo", "foo:", " ret"] =
      .ok [{ name := "", body := [" ret"], epilogue := { Start := -1, End := 1 } }] := by
  constructor
  · intro token h
    have hd : token.data.dropWhile (fun c => !c.isDigit) = [] := by
      rw [List.dropWhile_eq_nil_iff]
      intro c hc
      simp [h c hc]
    have h1 : extractName token =
        ((extractNameLoopAux ((token.data.dropWhile (fun c => !c.isDigit)).length + 1)
          (token.data.dropWhile (fun c => !c.isDigit))).map List.flatten).map
            (fun cs => String.mk cs) := rfl
    rw [h1, hd]
    decide
  · decide

/-- C6 witness: the digit-free token `"foo"` decodes to the empty name. -/
theorem c6_witness : extractName "foo" = some "" :=
  c6_no_digit_empty_name.1 "foo" (by decide)

theorem segmentOne_none (ctx : LineCtx) (src : List String) (g : Global) (b e : Nat)
    (h : findRet src b e = none) : segmentOne ctx src g b e = .ok [] := by
  unfold segmentOne
  rw [h]

theorem segmentOne_some (ctx : LineCtx) (src : List String) (g : Global) (b e r : Nat)
    (s : Subroutine) (hfr : findRet src b e = some r)
    (hex : extractSubroutine ctx r src g = .ok s) :
    segmentOne ctx src g b e = .ok [s] := by
  unfold segmentOne
  rw [hfr]
  show Except.bind (extractSubroutine ctx r src g) (fun s => Except.ok [s]) = .ok [s]
  rw [hex]
  rfl

/-- C1 counterexample: in the listing `[".globl foo", "foo:", "nop",
".globl bar", "bar:", " ret"]` the first global's region (lines 0 to 2)
contains no return instruction, yet segmentation does not fail: it silently
skips that global and returns one subroutine (for `bar`), so it neither
aborts with a Missing Return error nor produces an empty result. -/
theorem c1_counterexample :
    findRet [".globl foo", "foo:", "nop", ".globl bar", "bar:", " ret"] 0 3 = none ∧
    segmentSource specCtx [".globl foo", "foo:", "nop", ".globl bar", "bar:", " ret"] =
      .ok [{ name := "", body := [" ret"], epilogue := { Start := -1, End := 1 } }] := by
  decide

/-- C1 (amended): a global whose region (from its directive line to the next
global's directive line, or the end of the listing) contains no return
instruction is silently skipped: segmentation produces no record for it,
raises no error, and continues with the remaining globals. -/
theorem c1_missing_ret_skips (ctx : LineCtx) (src : List String) (g : Global)
    (rest : List Global) (splitBegin splitEnd : Nat)
    (hse : splitEnd = match rest with | [] => src.length | g2 :: _ => g2.dotGlobalLine)
    (h : findRet src splitBegin splitEnd = none) :
    segmentAux ctx src (g :: rest) splitBegin = segmentAux ctx src rest splitEnd := by
  cases rest with
  | nil =>
    have hse' : splitEnd = src.length := hse
    subst hse'
    show Except.bind (segmentOne ctx src g splitBegin src.length)
      (fun firstPart => Except.bind (segmentAux ctx src [] src.length)
        (fun tail => Except.ok (firstPart ++ tail))) = segmentAux ctx src [] src.length
    rw [segmentOne_none ctx src g _ _ h]
    rfl
  | cons g2 rest2 =>
    have hse' : splitEnd = g2.dotGlobalLine := hse
    subst hse'
    show Except.bind (segmentOne ctx src g splitBegin g2.dotGlobalLine)
      (fun firstPart => Except.bind (segmentAux ctx src (g2 :: rest2) g2.dotGlobalLine)
        (fun tail => Except.ok (firstPart ++ tail))) =
      segmentAux ctx src (g2 :: rest2) g2.dotGlobalLine
    rw [segmentOne_none ctx src g _ _ h]
    cases hs : segmentAux ctx src (g2 :: rest2) g2.dotGlobalLine with
    | error e => rfl
    | ok t => rfl

/-- C1 witness: with the one-line listing `["x"]` and a global whose region
`[0, 1)` has no return instruction, segmentation of that global equals
segmentation of the remaining (empty) list of globals. -/
theorem c1_witness :
    segmentAux specCtx ["x"] [{ dotGlobalLine := 0, globalName := "", globalLabelLine := 0 }] 0 =
      segmentAux specCtx ["x"] [] 1 :=
  c1_missing_ret_skips specCtx ["x"]
    { dotGlobalLine := 0, globalName := "", globalLabelLine := 0 } [] 0 1 rfl (by decide)

theorem findLabelAux_ok (labelDef : String) :
    ∀ (lines : List String) (idx i : Nat), findLabelAux labelDef lines idx = .ok i →
      idx ≤ i ∧ i - idx < lines.length ∧
      List.isPrefixOf labelDef.data ((lines.getD (i - idx) "").data) = true ∧
      ∀ j, j < i - idx → List.isPrefixOf labelDef.data ((lines.getD j "").data) = false := by
  intro lines
  induction lines with
  | nil => intro idx i h; exact absurd h (by simp [findLabelAux])
  | cons line rest ih =>
    intro idx i h
    unfold findLabelAux at h
    by_cases hp : List.isPrefixOf labelDef.data line.data = true
    · rw [if_pos hp, Except.ok.injEq] at h
      subst h
      refine ⟨Nat.le_refl idx, by simp, ?_, ?_⟩
      · rw [Nat.sub_self]
        exact hp
      · intro j hj
        rw [Nat.sub_self] at hj
        exact absurd hj (Nat.not_lt_zero j)
    · rw [if_neg hp] at h
      obtain ⟨hle, hlt, hpre, hprev⟩ := ih (idx + 1) i h
      have hii : i - idx = (i - (idx + 1)) + 1 := by omega
      refine ⟨by omega, by simp only [List.length_cons]; omega, ?_, ?_⟩
      · rw [hii]; exact hpre
      · intro j hj
        cases j with
        | zero =>
          show List.isPrefixOf labelDef.data line.data = false
          exact (Bool.not_eq_true _) ▸ hp
        | succ k =>
          have hk : k < i - (idx + 1) := by omega
          exact hprev k hk

theorem findLabelAux_error (labelDef : String) :
    ∀ (lines : List String) (idx : Nat),
      (∀ j, j < lines.length → List.isPrefixOf labelDef.data ((lines.getD j "").data) = false) →
      findLabelAux labelDef lines idx = .error (.labelNotFound labelDef) := by
  intro lines
  induction lines with
  | nil => intro idx _; rfl
  | cons line rest ih =>
    intro idx h
    unfold findLabelAux
    have h0 : List.isPrefixOf labelDef.data line.data = false := h 0 (by simp)
    rw [if_neg (by simp [h0])]
    exact ih (idx + 1) (fun j hj => h (j + 1) (by simp only [List.length_cons]; omega))

/-- C4 (amended): for every `.globl` operand token, `findLabel` searches the
whole listing from its beginning (not from the directive line) for the first
line whose raw, untrimmed text begins with the raw operand token (not the
decoded name) followed by `":"`; when no such line exists anywhere it fails
fatally with the Missing Label panic. -/
theorem c4_raw_label_search (lines : List String) (label : String) :
    (∀ i, findLabel lines label = .ok i →
      i < lines.length ∧
      List.isPrefixOf (label ++ ":").data ((lines.getD i "").data) = true ∧
      ∀ j, j < i → List.isPrefixOf (label ++ ":").data ((lines.getD j "").data) = false) ∧
    ((∀ j, j < lines.length →
        List.isPrefixOf (label ++ ":").data ((lines.getD j "").data) = false) →
      findLabel lines label = .error (.labelNotFound (label ++ ":"))) := by
  constructor
  · intro i h
    obtain ⟨hle, hlt, hpre, hprev⟩ := findLabelAux_ok (label ++ ":") lines 0 i h
    rw [Nat.sub_zero] at hlt hpre
    exact ⟨hlt, hpre, fun j hj => hprev j (by omega)⟩
  · intro h
    exact findLabelAux_error (label ++ ":") lines 0 h

/-- C4 counterexample: in the listing `[".globl 3foo", "foo:"]` the operand
token `"3foo"` decodes to `"foo"` and line 1's trimmed text begins with
`"foo:"`, so the claim predicts that global's `labelLine` is 1; but the code
searches for the raw token `"3foo:"` instead, finds nothing, and aborts with
the Missing Label panic. -/
theorem c4_counterexample :
    extractName "3foo" = some "foo" ∧
    List.isPrefixOf ("foo" ++ ":").data
      (trimChars (([".globl 3foo", "foo:"].getD 1 "").data)) = true ∧
    splitOnGlobals [".globl 3foo", "foo:"] = .error (.labelNotFound "3foo:") := by
  decide

/-- C4 witness: on the listing `["ab:"]` the label `"ab"` is found on line
0, whose raw text begins with `"ab:"`. -/
theorem c4_witness :
    List.isPrefixOf ("ab" ++ ":").data ((["ab:"].getD 0 "").data) = true :=
  (((c4_raw_label_search ["ab:"] "ab").1 0 (by decide)).2).1

theorem closureLoopAux_succ (ctx : LineCtx) (src : List String) (bs be f : Nat) :
    closureLoopAux ctx src bs be (f + 1) =
      if bs ≤ be ∧ be ≤ src.length then
        match getMissingLabels ctx (listSlice src bs be) with
        | .error e => .error e
        | .ok missing =>
          if missing = [] then .ok be
          else closureLoopAux ctx src bs (be + getMissingLines ctx src (be - 1) missing) f
      else .error .sliceBounds := rfl

theorem extractSubroutine_eq (ctx : LineCtx) (lineRet : Nat) (src : List String) (g : Global) :
    extractSubroutine ctx lineRet src g =
      Except.bind (closureLoop ctx src (g.globalLabelLine + 1) (lineRet + 1)) (fun bodyEnd =>
        Except.bind (extractEpilogue ctx (listSlice src (g.globalLabelLine + 1) bodyEnd))
          (fun epi => Except.ok (removePrologueLines ctx
            { name := g.globalName,
              body := listSlice src (g.globalLabelLine + 1) bodyEnd,
              epilogue := epi }))) := rfl

/-- C7: when the candidate body window `[labelLine+1, lineRet+1)` contains a
line defining a label that no jump instruction of the same window references,
subroutine extraction fails fatally with the Unmatched Label panic instead of
continuing. -/
theorem c7_unmatched_label_fatal (ctx : LineCtx) (src : List String) (lineRet : Nat)
    (g : Global) (hb : g.globalLabelLine + 1 ≤ lineRet + 1) (hl : lineRet + 1 ≤ src.length)
    (hx : ∃ line ∈ listSlice src (g.globalLabelLine + 1) (lineRet + 1),
      lineLabel ctx line ≠ "" ∧
      lineLabel ctx line ∉ collectSet (lineJumpTarget ctx)
        (listSlice src (g.globalLabelLine + 1) (lineRet + 1))) :
    extractSubroutine ctx lineRet src g = .error .unmatchedLabel := by
  have hgm := getMissingLabels_unmatched ctx _ hx
  have hcl : closureLoop ctx src (g.globalLabelLine + 1) (lineRet + 1) =
      .error .unmatchedLabel := by
    show closureLoopAux ctx src (g.globalLabelLine + 1) (lineRet + 1)
      (src.length + 1 + 1) = .error .unmatchedLabel
    rw [closureLoopAux_succ, if_pos ⟨hb, hl⟩, hgm]
  rw [extractSubroutine_eq, hcl]
  rfl

/-- C7 witness: the window of `[".globl foo", "foo:", "dead:", " ret"]` holds
the label definition `dead:` that no jump references, and extraction aborts
with the Unmatched Label panic. -/
theorem c7_witness :
    extractSubroutine specCtx 3 [".globl foo", "foo:", "dead:", " ret"]
      { dotGlobalLine := 0, globalName := "", globalLabelLine := 1 } =
      .error .unmatchedLabel :=
  c7_unmatched_label_fatal specCtx [".globl foo", "foo:", "dead:", " ret"] 3
    { dotGlobalLine := 0, globalName := "", globalLabelLine := 1 }
    (by decide) (by decide) (by decide)

theorem segmentAux_ok_of_regions (ctx : LineCtx) (src : List String) :
    ∀ (globals : List Global) (sb : Nat),
      (∀ t ∈ regionList src.length globals sb,
        ∃ r s, findRet src t.2.1 t.2.2 = some r ∧ extractSubroutine ctx r src t.1 = .ok s) →
      ∃ subs, segmentAux ctx src globals sb = .ok subs ∧
        subs.length = globals.length ∧
        subs.map Subroutine.name = globals.map Global.globalName := by
  intro globals
  induction globals with
  | nil => intro sb _; exact ⟨[], rfl, rfl, rfl⟩
  | cons g rest ih =>
    intro sb h
    cases rest with
    | nil =>
      obtain ⟨r, s, hfr, hex⟩ := h (g, sb, src.length) (by simp [regionList])
      refine ⟨[s], ?_, rfl, ?_⟩
      · show Except.bind (segmentOne ctx src g sb src.length)
          (fun firstPart => Except.bind (segmentAux ctx src [] src.length)
            (fun tail => Except.ok (firstPart ++ tail))) = .ok [s]
        rw [segmentOne_some ctx src g sb src.length r s hfr hex]
        rfl
      · simp [extractSubroutine_name ctx r src g s hex]
    | cons g2 rest2 =>
      obtain ⟨r, s, hfr, hex⟩ := h (g, sb, g2.dotGlobalLine) (by simp [regionList])
      obtain ⟨subs2, hseg2, hlen2, hmap2⟩ := ih g2.dotGlobalLine (fun t ht => h t (by
        rw [show regionList src.length (g :: g2 :: rest2) sb =
          (g, sb, g2.dotGlobalLine) ::
            regionList src.length (g2 :: rest2) g2.dotGlobalLine from rfl]
        exact List.mem_cons_of_mem _ ht))
      refine ⟨s :: subs2, ?_, by simp [hlen2], ?_⟩
      · show Except.bind (segmentOne ctx src g sb g2.dotGlobalLine)
          (fun firstPart =>
            Except.bind (segmentAux ctx src (g2 :: rest2) g2.dotGlobalLine)
              (fun tail => Except.ok (firstPart ++ tail))) = .ok (s :: subs2)
        rw [segmentOne_some ctx src g sb g2.dotGlobalLine r s hfr hex, hseg2]
        rfl
      · simp [extractSubroutine_name ctx r src g s hex, hmap2]

/-- C2 (amended): for every listing whose global scan succeeds, if every
global's region contains a return instruction and the corresponding
subroutine extraction succeeds (in particular no window holds an unmatched
label and no closure scan overruns the listing), then segmentation yields
exactly one record per global, in directive order (the record names follow
the globals' names in order).  Well-formedness in the sense of the original
claim (label found, return present) alone is not sufficient; see the
counterexample. -/
theorem c2_count_when_extractions_succeed (ctx : LineCtx) (src : List String)
    (globals : List Global) (hg : splitOnGlobals src = .ok globals)
    (h : ∀ t ∈ regionList src.length globals
        (match globals with | [] => 0 | g :: _ => g.dotGlobalLine),
      ∃ r s, findRet src t.2.1 t.2.2 = some r ∧ extractSubroutine ctx r src t.1 = .ok s) :
    ∃ subs, segmentSource ctx src = .ok subs ∧ subs.length = globals.length ∧
      subs.map Subroutine.name = globals.map Global.globalName := by
  cases globals with
  | nil =>
    refine ⟨[], ?_, rfl, rfl⟩
    unfold segmentSource
    rw [hg]
    rfl
  | cons g rest =>
    obtain ⟨subs, hseg, hlen, hmap⟩ :=
      segmentAux_ok_of_regions ctx src (g :: rest) g.dotGlobalLine h
    refine ⟨subs, ?_, hlen, hmap⟩
    unfold segmentSource
    rw [hg]
    exact hseg

/-- C2 counterexample: the listing `[".globl foo", "foo:", "dead:", " ret"]`
has one global that is well-formed in the claim's sense — its label is
defined (line 1) and a return instruction occurs before the end of the
listing (line 3) — yet segmentation yields zero Subroutine records: the body
window holds the unreferenced label `dead:` and segmentation aborts with the
Unmatched Label panic. -/
theorem c2_counterexample :
    splitOnGlobals [".globl foo", "foo:", "dead:", " ret"] =
      .ok [{ dotGlobalLine := 0, globalName := "", globalLabelLine := 1 }] ∧
    findRet [".globl foo", "foo:", "dead:", " ret"] 0 4 = some 3 ∧
    segmentSource specCtx [".globl foo", "foo:", "dead:", " ret"] =
      .error .unmatchedLabel := by
  decide

/-- C2 witness: the listing `[".globl foo", "foo:", " ret"]` has one global,
its extraction succeeds, and segmentation yields exactly one record carrying
that global's (empty) name. -/
theorem c2_witness :
    ∃ subs, segmentSource specCtx [".globl foo", "foo:", " ret"] = .ok subs ∧
      subs.length = ([{ dotGlobalLine := 0, globalName := "", globalLabelLine := 1 }] :
        List Global).length ∧
      subs.map Subroutine.name =
        ([{ dotGlobalLine := 0, globalName := "", globalLabelLine := 1 }] :
          List Global).map Global.globalName :=
  c2_count_when_extractions_succeed specCtx [".globl foo", "foo:", " ret"]
    [{ dotGlobalLine := 0, globalName := "", globalLabelLine := 1 }] (by decide)
    (fun t ht => by
      simp only [regionList, List.length_cons, List.length_nil, List.mem_singleton] at ht
      subst ht
      exact ⟨2, { name := "", body := [" ret"], epilogue := { Start := -1, End := 1 } },
        by decide, by decide⟩)

/-- C10: when the closure loop has a non-empty missing-label set and the
forward extension scan reaches the end of the listing without finding an
unconditional `JMP` after the missing labels, the new `bodyEnd` becomes
`src.length + 1`, strictly beyond the listing, and the next window slice
faults with the out-of-bounds slice panic rather than a graceful error. -/
theorem c10_unbounded_extension (ctx : LineCtx) (src : List String) (bs be : Nat)
    (missing : List String) (hb : bs ≤ be) (hl : be ≤ src.length)
    (hm : getMissingLabels ctx (listSlice src bs be) = .ok missing) (hne : missing ≠ [])
    (hjmp : scanJmp ctx src (scanLabels ctx src (be - 1) missing).1 = src.length) :
    be + getMissingLines ctx src (be - 1) missing = src.length + 1 ∧
    closureLoop ctx src bs be = .error .sliceBounds := by
  have hwin : listSlice src bs be ≠ [] := by
    intro hnil
    rw [hnil, getMissingLabels_nil] at hm
    exact hne (Except.ok.inj hm).symm
  have hbe1 : 1 ≤ be := by
    rcases listSlice_ne_nil_bounds hwin with ⟨h1, _⟩
    omega
  have hsl := scanLabels_fst_ge ctx src (be - 1) missing
  have hsj := scanJmp_ge ctx src (scanLabels ctx src (be - 1) missing).1
  have harith : be + getMissingLines ctx src (be - 1) missing = src.length + 1 := by
    unfold getMissingLines
    rw [hjmp]
    omega
  refine ⟨harith, ?_⟩
  show closureLoopAux ctx src bs be (src.length + 1 + 1) = .error .sliceBounds
  rw [closureLoopAux_succ, if_pos ⟨hb, hl⟩, hm]
  show (if missing = [] then Except.ok be
    else closureLoopAux ctx src bs (be + getMissingLines ctx src (be - 1) missing)
      (src.length + 1)) = .error .sliceBounds
  rw [if_neg hne, harith, closureLoopAux_succ, if_neg (by omega)]

/-- C10 witness: in `[".globl f", "f:", " jne Lmiss", " ret"]` the window
`[2, 4)` references the never-defined label `Lmiss` and no `JMP` follows, so
the extension pushes `bodyEnd` to 5 (one past the listing) and the closure
loop faults with the slice-bounds panic. -/
theorem c10_witness :
    4 + getMissingLines specCtx [".globl f", "f:", " jne Lmiss", " ret"] 3 ["Lmiss"] = 5 ∧
    closureLoop specCtx [".globl f", "f:", " jne Lmiss", " ret"] 2 4 =
      .error .sliceBounds :=
  c10_unbounded_extension specCtx [".globl f", "f:", " jne Lmiss", " ret"] 2 4 ["Lmiss"]
    (by decide) (by decide) (by decide) (by decide) (by decide)

/-- C3: for every subroutine the extraction produces (closure loop enabled),
every label referenced by a jump instruction of a stored-body line is defined
as a label on some stored-body line — provided the classifiers satisfy the
contract that comment-only lines define no label and label-defining lines are
not prologue-shaped (both hold for the spec-modelled `specCtx`). -/
theorem c3_closure (ctx : LineCtx) (src : List String) (lineRet : Nat) (g : Global)
    (s : Subroutine)
    (hskip : ∀ line : String, (ctx.stripComments line).2 = true → lineLabel ctx line = "")
    (hprol : ∀ (e : Epilogue) (line : String), lineLabel ctx line ≠ "" →
      ctx.isPrologueInstruction e (ctx.stripComments line).1 = false)
    (hok : extractSubroutine ctx lineRet src g = .ok s) :
    ∀ line ∈ s.body, lineJumpTarget ctx line ≠ "" →
      ∃ line2 ∈ s.body, lineLabel ctx line2 = lineJumpTarget ctx line := by
  obtain ⟨be, epi, hcl, hep, hs⟩ := extractSubroutine_ok_elim ctx lineRet src g s hok
  obtain ⟨hclosed, hbs, hbe⟩ :=
    closureLoop_ok_closed ctx src (g.globalLabelLine + 1) (lineRet + 1) be hcl
  have hbody : s.body = (listSlice src (g.globalLabelLine + 1) be).drop
      (getPrologueLines ctx epi (listSlice src (g.globalLabelLine + 1) be)) := by
    rw [hs]
    rfl
  intro line hline htgt
  have hlinew : line ∈ listSlice src (g.globalLabelLine + 1) be :=
    List.drop_subset _ _ (hbody ▸ hline)
  have hjmem : lineJumpTarget ctx line ∈
      collectSet (lineJumpTarget ctx) (listSlice src (g.globalLabelLine + 1) be) :=
    mem_collectSet.mpr ⟨htgt, line, hlinew, rfl⟩
  have hlmem := getMissingLabels_ok_closed ctx _ hclosed _ hjmem
  obtain ⟨hne, line2, hline2w, hlab2⟩ := mem_collectSet.mp hlmem
  have hsplit : line2 ∈ (listSlice src (g.globalLabelLine + 1) be).take
        (getPrologueLines ctx epi (listSlice src (g.globalLabelLine + 1) be)) ++
      (listSlice src (g.globalLabelLine + 1) be).drop
        (getPrologueLines ctx epi (listSlice src (g.globalLabelLine + 1) be)) := by
    rw [List.take_append_drop]
    exact hline2w
  rcases List.mem_append.mp hsplit with hmem | hmem
  · exfalso
    obtain ⟨j, hj, hget⟩ := mem_take_getD _ _ line2 hmem
    rcases getPrologueLines_shape ctx epi (listSlice src (g.globalLabelLine + 1) be) j hj
      with hsk | hpr
    · rw [hget] at hsk
      rw [hskip line2 hsk] at hlab2
      exact hne hlab2.symm
    · rw [hget] at hpr
      have hne2 : lineLabel ctx line2 ≠ "" := by rw [hlab2]; exact hne
      rw [hprol epi line2 hne2] at hpr
      exact Bool.false_ne_true hpr
  · exact ⟨line2, hbody ▸ hmem, hlab2⟩

/-- C3 witness: for the extracted subroutine of the listing `[".globl f",
"f:", " jne L1", " ret", "L1:", " jmp L1", "x"]` the jump target of the
body line `" jne L1"` is defined on a body line. -/
theorem c3_witness :
    ∃ line2, line2 ∈ (Subroutine.mk "" [" jne L1", " ret", "L1:", " jmp L1"]
        (Epilogue.mk 1 2)).body ∧
      lineLabel specCtx line2 = lineJumpTarget specCtx " jne L1" :=
  c3_closure specCtx [".globl f", "f:", " jne L1", " ret", "L1:", " jmp L1", "x"] 3
    { dotGlobalLine := 0, globalName := "", globalLabelLine := 1 }
    { name := "", body := [" jne L1", " ret", "L1:", " jmp L1"],
      epilogue := { Start := 1, End := 2 } }
    specCtx_skip_no_label specCtx_label_not_prologue (by decide)
    " jne L1" (by decide) (by decide)

theorem scanLabelsAux_exhaust (ctx : LineCtx) (src : List String) :
    ∀ (fuel i : Nat) (m : List String), i + fuel = src.length →
      ((scanLabelsAux ctx src i m fuel).2 = [] ∨
        (scanLabelsAux ctx src i m fuel).1 = src.length) := by
  intro fuel
  induction fuel with
  | zero =>
    intro i m h
    right
    show i = src.length
    omega
  | succ f ih =>
    intro i m h
    unfold scanLabelsAux
    by_cases hm : m = []
    · rw [if_pos hm]
      left
      exact hm
    · rw [if_neg hm]
      exact ih (i + 1) _ (by omega)

theorem scanJmpAux_hit (ctx : LineCtx) (src : List String) :
    ∀ (fuel i : Nat), scanJmpAux ctx src i fuel < i + fuel →
      (ctx.upperCaseJumps (src.getD (scanJmpAux ctx src i fuel) "")).2.1 = "JMP" := by
  intro fuel
  induction fuel with
  | zero =>
    intro i h
    exact absurd h (by show ¬ i < i + 0; omega)
  | succ f ih =>
    intro i h
    unfold scanJmpAux at h ⊢
    by_cases hj : (ctx.upperCaseJumps (src.getD i "")).2.1 = "JMP"
    · rw [if_pos hj]
      exact hj
    · rw [if_neg hj] at h ⊢
      exact ih (i + 1) (by omega)

theorem scanJmp_hit (ctx : LineCtx) (src : List String) (i : Nat)
    (h : scanJmp ctx src i < src.length) :
    (ctx.upperCaseJumps (src.getD (scanJmp ctx src i) "")).2.1 = "JMP" := by
  unfold scanJmp at h ⊢
  by_cases hi : i ≤ src.length
  · apply scanJmpAux_hit ctx src (src.length - i) i
    omega
  · exfalso
    have hz : src.length - i = 0 := by omega
    rw [hz] at h
    exact absurd h (by show ¬ i < src.length; omega)

theorem scanJmpAux_not_before (ctx : LineCtx) (src : List String) :
    ∀ (fuel i j : Nat), i ≤ j → j < scanJmpAux ctx src i fuel →
      (ctx.upperCaseJumps (src.getD j "")).2.1 ≠ "JMP" := by
  intro fuel
  induction fuel with
  | zero =>
    intro i j hij hj
    exact absurd (Nat.lt_of_le_of_lt hij hj) (Nat.lt_irrefl i)
  | succ f ih =>
    intro i j hij hj
    unfold scanJmpAux at hj
    by_cases hm : (ctx.upperCaseJumps (src.getD i "")).2.1 = "JMP"
    · rw [if_pos hm] at hj
      exact absurd (Nat.lt_of_le_of_lt hij hj) (Nat.lt_irrefl i)
    · rw [if_neg hm] at hj
      rcases Nat.eq_or_lt_of_le hij with rfl | hlt
      · exact hm
      · exact ih (i + 1) j hlt hj

theorem scanJmp_not_before (ctx : LineCtx) (src : List String) (i j : Nat)
    (hij : i ≤ j) (hj : j < scanJmp ctx src i) :
    (ctx.upperCaseJumps (src.getD j "")).2.1 ≠ "JMP" :=
  scanJmpAux_not_before ctx src (src.length - i) i j hij hj

/-- C8 (amended): `bodyEnd` is initialised to one line past the first return
instruction found scanning forward from the global's region start — its
directive line, not `labelLine + 1` as the claim states (see the
counterexample) — and each closure-extension iteration sets `bodyEnd` to one
line past the first unconditional `JMP` found after the forward label scan
stopped (the label scan having stopped only because the missing set emptied
or the listing ended); no earlier line of that trailing scan is an
unconditional `JMP`. -/
theorem c8_body_end_resolution (ctx : LineCtx) (src : List String) (b e r be : Nat)
    (missing : List String) :
    (findRet src b e = some r →
      b ≤ r ∧ r < e ∧ isRetLine (src.getD r "") = true ∧
      ∀ j, b ≤ j → j < r → isRetLine (src.getD j "") = false) ∧
    (1 ≤ be → be ≤ src.length →
      be + getMissingLines ctx src (be - 1) missing =
        scanJmp ctx src (scanLabels ctx src (be - 1) missing).1 + 1 ∧
      ((scanLabels ctx src (be - 1) missing).2 = [] ∨
        (scanLabels ctx src (be - 1) missing).1 = src.length) ∧
      (scanJmp ctx src (scanLabels ctx src (be - 1) missing).1 < src.length →
        (ctx.upperCaseJumps (src.getD
          (scanJmp ctx src (scanLabels ctx src (be - 1) missing).1) "")).2.1 = "JMP") ∧
      (∀ j, (scanLabels ctx src (be - 1) missing).1 ≤ j →
        j < scanJmp ctx src (scanLabels ctx src (be - 1) missing).1 →
        (ctx.upperCaseJumps (src.getD j "")).2.1 ≠ "JMP")) := by
  constructor
  · intro h
    exact findRet_spec src b e r h
  · intro hbe1 hbel
    have hsl := scanLabels_fst_ge ctx src (be - 1) missing
    have hsj := scanJmp_ge ctx src (scanLabels ctx src (be - 1) missing).1
    refine ⟨?_, ?_, ?_, ?_⟩
    · unfold getMissingLines
      omega
    · exact scanLabelsAux_exhaust ctx src (src.length - (be - 1)) (be - 1) missing (by omega)
    · exact scanJmp_hit ctx src (scanLabels ctx src (be - 1) missing).1
    · exact fun j h1 h2 =>
        scanJmp_not_before ctx src (scanLabels ctx src (be - 1) missing).1 j h1 h2

/-- C8 counterexample: in `[".globl foo", " ret", "foo:", " ret"]` the first
return instruction at or after `labelLine + 1 = 3` is line 3, so the claim
predicts `bodyEnd = 4` and the body `[3, 4)`; but the code scans for the
return from the region start (line 0), takes the `ret` on line 1, computes
the inverted range `[3, 2)` and faults with the slice-bounds panic. -/
theorem c8_counterexample :
    findRet [".globl foo", " ret", "foo:", " ret"] 3 4 = some 3 ∧
    segmentSource specCtx [".globl foo", " ret", "foo:", " ret"] =
      .error .sliceBounds := by
  decide

/-- C8 witness: in the listing `["a", " ret"]` the first return instruction
of the region `[0, 2)` is on line 1. -/
theorem c8_witness : isRetLine (["a", " ret"].getD 1 "") = true :=
  (((c8_body_end_resolution specCtx ["a", " ret"] 0 2 1 1 []).1 (by decide))).2.2.1

/-- C9: prologue stripping drops exactly the first `P` lines of the stored
body, where every dropped line is comment-only or prologue-shaped (so `P`
never passes the first non-prologue-shaped instruction, comment-only lines
being transparent); both epilogue bounds shift by exactly `-P`; the name is
unchanged and the remaining body lines keep their order; and before the
shift the epilogue's end is one past the first return-instruction line while
its start is at most that line (the return line being epilogue-shaped). -/
theorem c9_prologue_strip (ctx : LineCtx) (nm : String) (body : List String)
    (epi : Epilogue) (iret : Nat)
    (hepi : extractEpilogue ctx body = .ok epi)
    (hret : findRetIdx body = some iret)
    (hshape : ctx.isEpilogueInstruction (body.getD iret "") = true) :
    (removePrologueLines ctx { name := nm, body := body, epilogue := epi }).name = nm ∧
    (removePrologueLines ctx { name := nm, body := body, epilogue := epi }).body =
      body.drop (getPrologueLines ctx epi body) ∧
    (removePrologueLines ctx { name := nm, body := body, epilogue := epi }).epilogue.Start =
      epi.Start - (getPrologueLines ctx epi body : Int) ∧
    (removePrologueLines ctx { name := nm, body := body, epilogue := epi }).epilogue.End =
      epi.End - (getPrologueLines ctx epi body : Int) ∧
    (∀ j, j < getPrologueLines ctx epi body →
      (ctx.stripComments (body.getD j "")).2 = true ∨
      ctx.isPrologueInstruction epi (ctx.stripComments (body.getD j "")).1 = true) ∧
    epi.End = (iret : Int) + 1 ∧ epi.Start ≤ (iret : Int) := by
  have hepi' : epi =
      { Start := scanEpilogueStart ctx body iret, End := (iret : Int) + 1 } := by
    unfold extractEpilogue at hepi
    rw [hret] at hepi
    exact (Except.ok.inj hepi).symm
  refine ⟨rfl, rfl, rfl, rfl, getPrologueLines_shape ctx epi body, ?_, ?_⟩
  · rw [hepi']
  · rw [hepi']
    exact scanEpilogueStart_le ctx body iret hshape

/-- C9 witness: for the body `["push rbp", "pop rbp", " ret"]` the epilogue
computed before stripping ends one past the return line (index 2). -/
theorem c9_witness :
    ({ Start := 1, End := 3 } : Epilogue).End = ((2 : Nat) : Int) + 1 :=
  (c9_prologue_strip specCtx "f" ["push rbp", "pop rbp", " ret"]
    { Start := 1, End := 3 } 2 (by decide) (by decide) (by decide)).2.2.2.2.2.1
